import Mathlib

/-!
Verification of the yt-downloader Flask application (`app.py`).

This file gives a shallow embedding of the application's internally designed
logic: the per-job status records, the status store (in-memory dict mirrored
by one JSON file per job id), the single-worker FIFO download queue, the
progress hook of the external download tool, the optional "minivan" re-encode
step, and the HTTP endpoint handlers that touch this state.

Modelling conventions:
* Machine integers and byte counts are `Nat`; the floating-point arithmetic of
  the re-encode progress computation is modelled over `Rat` (exact rational
  arithmetic; Python `int()` truncation is `pyInt`), and the one-decimal
  `"%.1f"` renderings inside human-readable message strings are modelled by
  truncation (`fmt1`).
* The external tools are opaque: a run of the download tool is an input
  consisting of the list of progress-hook events it fired plus an optional
  exception; a run of the re-encode step is an input `ReencodeEnv` recording
  the glob result, the ffprobe outcome, the parsed duration, the `time=`
  values parsed from the ffmpeg stderr stream, and the ffmpeg exit status.
* Fallible filesystem writes/reads of status files take explicit `Bool`
  success flags (the code catches and logs those exceptions).
* The worker thread and the request handlers are interleaved at operation
  granularity (`Op`/`stepSt`): each handler call, and each processing of one
  dequeued job, is one atomic step.  The directory `/downloads` is a list of
  named entries; `pathlib.Path.glob` with pattern `*` matches hidden (dot)
  names, while the `glob` module used in the minivan step does not.
-/

namespace YtDl

/-- A status record: the JSON dictionary stored per job id.  Keys absent from
a particular write are `none`. -/
structure StatusRec where
  status : String
  progress : Option Int := none
  message : Option String := none
  error : Option String := none
  expected_size : Option Int := none
  video_title : Option String := none
deriving DecidableEq

/-- Record returned by `get_status_from_file` when an id is unknown:
`{'status': 'not_found'}`. -/
def notFoundRec : StatusRec := { status := "not_found" }

/-- Record written on submission and on worker pickup:
`{'status': 'queued', 'progress': 0}`. -/
def queuedRec : StatusRec := { status := "queued", progress := some 0 }

/-- Renders `v / u` with one decimal digit (Python `f"{v/u:.1f}"`, rounding
approximated by truncation; only used inside display messages). -/
def fmt1 (v u : Nat) : String :=
  let t := v * 10 / u
  toString (t / 10) ++ "." ++ toString (t % 10)

/-- The `format_size` helper of `download_video` / `progress_hook`. -/
def format_size (bytes_val : Nat) : String :=
  if bytes_val ≥ 1024 * 1024 * 1024 then fmt1 bytes_val (1024 * 1024 * 1024) ++ " GB"
  else if bytes_val ≥ 1024 * 1024 then fmt1 bytes_val (1024 * 1024) ++ " MB"
  else if bytes_val ≥ 1024 then fmt1 bytes_val 1024 ++ " KB"
  else toString bytes_val ++ " B"

/-- Speed rendering inside `progress_hook` (`speed_display`). -/
def speedDisplay (speed : Nat) : String :=
  if speed ≥ 1024 * 1024 then fmt1 speed (1024 * 1024) ++ " MB/s"
  else if speed ≥ 1024 then fmt1 speed 1024 ++ " KB/s"
  else toString speed ++ " B/s"

/-- The `speed_info` fragment of the downloading message. -/
def speedInfo (speed : Nat) : String :=
  if speed > 0 then " at " ++ speedDisplay speed else ""

/-- One event delivered to `progress_hook` by the download tool.  For a
`downloading` event, `total` is the resolved
`d.get('total_bytes') or d.get('total_bytes_estimate', 0)`, `downloaded` is
`d.get('downloaded_bytes', 0)` and `speed` is `d.get('speed')` with `None`
already replaced by `0`. -/
inductive HookEvent where
  | downloading (total downloaded speed : Nat)
  | processing
  | finished
deriving DecidableEq

/-- Sanity of a hook event as reported by the tool: the tool never reports
more downloaded bytes than the total it reports. -/
def eventOk : HookEvent → Bool
  | .downloading total downloaded _ => downloaded ≤ total
  | .processing => true
  | .finished => true

/-- The `progress_hook` closure of `download_video`: the status record it
writes for one event (`none` when it writes nothing, i.e. a `downloading`
event whose total is `0`).  The active-downloads guard is satisfied while the
job is being processed, which is the only time events arrive in this model. -/
def progress_hook (video_title : String) : HookEvent → Option StatusRec
  | .downloading total downloaded speed =>
    if total > 0 then
      let progress := downloaded * 100 / total
      some { status := "downloading", progress := some (Int.ofNat progress),
             message := some (video_title ++ " - Downloading: " ++ toString progress ++ "%"
               ++ speedInfo speed
               ++ " (" ++ format_size downloaded ++ "/" ++ format_size total ++ ")") }
    else none
  | .processing =>
    some { status := "processing", progress := some 50,
           message := some (video_title ++ " - Post-processing...") }
  | .finished =>
    some { status := "finished", progress := some 100,
           message := some (video_title ++ " - Encoding...") }

/-- Python `int()` applied to a rational value: truncation toward zero. -/
def pyInt (x : Rat) : Int := if 0 ≤ x then Int.floor x else Int.ceil x

/-- Outcome of the environment for one run of the minivan re-encode block. -/
structure ReencodeEnv where
  /-- Result of `glob.glob(DOWNLOAD_DIR / '*_minivan.mp4')` (the `glob`
  module, which skips hidden names). -/
  foundFiles : List String
  /-- `ffprobe` exited 0 and its JSON output parsed to a duration. -/
  probeOk : Bool
  /-- The parsed `format.duration`. -/
  duration : Rat
  /-- The `time=H:MM:SS.ss` values parsed from ffmpeg stderr, in seconds. -/
  times : List Rat
  /-- The ffmpeg process exited 0 and the final `os.replace` succeeded. -/
  ffmpegOk : Bool
deriving DecidableEq

/-- One progress write of the ffmpeg monitoring loop, for one parsed `time=`
value `t` (skipped when the probed duration is not positive). -/
def reencodeWrite (video_title : String) (duration t : Rat) : Option StatusRec :=
  if 0 < duration then
    let encoding_progress : Rat := min (t / duration) 1
    let overall_progress : Rat := 75 + encoding_progress * 24
    some { status := "processing", progress := some (pyInt overall_progress),
           message := some (video_title ++ " - Re-encoding for Minivan: "
             ++ toString (pyInt (encoding_progress * 100)) ++ "%") }
  else none

/-- The minivan re-encode block of `download_video`: the status records it
writes (the unconditional 75% write, then one write per parsed `time=`
value), and the resulting `minivan_success` flag.  An ffprobe failure or an
ffmpeg failure raises inside the inner `try` and is swallowed with
`minivan_success = False`; an empty glob result sets it directly. -/
def minivanReencode (video_title : String) (env : ReencodeEnv) : List StatusRec × Bool :=
  let w75 : StatusRec :=
    { status := "processing", progress := some 75,
      message := some (video_title ++ " - Re-encoding for Minivan...") }
  if env.foundFiles.isEmpty then ([w75], false)
  else if env.probeOk = false then ([w75], false)
  else (w75 :: env.times.filterMap (reencodeWrite video_title env.duration), env.ffmpegOk)

/-- One tuple placed on `download_queue`. -/
structure DlJob where
  url : String
  download_type : String
  quality_preset : String
  speed_limit_mbps : Nat
  video_id : String
deriving DecidableEq

/-- Result of one run of `download_video`: the ordered sequence of status
records it writes for its job id, whether the minivan re-encode block was
entered, and the final `minivan_success` flag.  The function models the whole
body including the outer catch-all `except`, so it is total: no exception
escapes to the worker loop. -/
structure DlResult where
  writes : List StatusRec
  reencodeRan : Bool
  minivan_success : Bool

/-- The body of `download_video`.  `infoRes` is the outcome of the initial
`extract_info` call (`none` when it raised; the defaults `"Unknown Video"` /
`0` then apply), `events` are the progress-hook events fired by
`ydl.download`, `dlErr` is `some e` when `ydl.download` raised the exception
rendered as the string `e`, and `env` is the minivan re-encode environment. -/
def download_video (job : DlJob) (infoRes : Option (String × Nat))
    (events : List HookEvent) (dlErr : Option String) (env : ReencodeEnv) : DlResult :=
  let video_title := (infoRes.map Prod.fst).getD "Unknown Video"
  let expected_size := (infoRes.map Prod.snd).getD 0
  let startWrite : StatusRec :=
    { status := "downloading", progress := some 0,
      message := some ("Starting download: " ++ video_title
        ++ (if expected_size > 0 then " (" ++ format_size expected_size ++ ")" else "")),
      expected_size := some (Int.ofNat expected_size),
      video_title := some video_title }
  let hookWrites := events.filterMap (progress_hook video_title)
  match dlErr with
  | some e =>
    { writes := startWrite :: hookWrites ++
        [{ status := "error", progress := some 0, error := some e,
           message := some (video_title ++ " - Error: " ++ e) }],
      reencodeRan := false, minivan_success := true }
  | none =>
    let completedWrite : StatusRec :=
      { status := "completed", progress := some 100,
        message := some (video_title ++ " - Complete!") }
    if job.download_type == "audio+video" && job.quality_preset == "minivan" then
      let mv := minivanReencode video_title env
      { writes := startWrite :: hookWrites ++ (mv.1 ++ [completedWrite]),
        reencodeRan := true, minivan_success := mv.2 }
    else
      { writes := startWrite :: hookWrites ++ [completedWrite],
        reencodeRan := false, minivan_success := true }

/-- The full sequence of status records written for one job over its
lifecycle: the `queued` write of the `/api/download` handler at submission,
the `queued` reset written by `download_worker` on pickup, then the writes of
`download_video`. -/
def jobStatusTrace (job : DlJob) (infoRes : Option (String × Nat))
    (events : List HookEvent) (dlErr : Option String) (env : ReencodeEnv) : List StatusRec :=
  queuedRec :: queuedRec :: (download_video job infoRes events dlErr env).writes

/-- The progress values carried by a sequence of status records. -/
def progressesOf (l : List StatusRec) : List Int :=
  l.filterMap (fun r => r.progress)

/-- Python `name.startswith('.')`: whether a file name begins with a dot
(a hidden name). -/
def startsWithDot (s : String) : Bool :=
  match s.data with
  | [] => false
  | c :: _ => c == '.'

/-- Decides that a list of integers never decreases from one element to the
next. -/
def nonDecreasing : List Int → Bool
  | [] => true
  | [_] => true
  | a :: b :: l => decide (a ≤ b) && nonDecreasing (b :: l)

theorem nonDecreasing_iff_chain : ∀ l : List Int,
    nonDecreasing l = true ↔ l.Chain' (fun a b => a ≤ b)
  | [] => by simp [nonDecreasing]
  | [_] => by simp [nonDecreasing]
  | a :: b :: l => by
    rw [nonDecreasing, Bool.and_eq_true, decide_eq_true_eq, List.chain'_cons,
      nonDecreasing_iff_chain (b :: l)]

/-- One entry of the `/downloads` directory. -/
structure DirEntry where
  name : String
  is_file : Bool
  size : Nat
deriving DecidableEq

/-- The mutable state of the application process. -/
structure AppState where
  /-- The in-memory `download_status` dict (most recent binding first). -/
  download_status : List (String × StatusRec)
  /-- The status files `STATUS_DIR/<id>.json`: content and mtime, most
  recent binding first. -/
  status_files : List (String × StatusRec × Nat)
  /-- The `download_counter` global. -/
  download_counter : Nat
  /-- The `download_queue` contents, front first. -/
  dl_queue : List DlJob
  /-- Whether `start_download_worker` has already started the worker. -/
  worker_started : Bool
  /-- The entries of `DOWNLOAD_DIR` other than the status files (which live
  in the hidden subdirectory `.status`, itself not a regular file). -/
  dfiles : List DirEntry
deriving DecidableEq

/-- The state at process start. -/
def initState : AppState :=
  { download_status := [], status_files := [], download_counter := 0,
    dl_queue := [], worker_started := false, dfiles := [] }

/-- `safe_update_status`: always updates the in-memory dict; updates the
status file when the file write succeeds (`fileOk`), stamping it with the
current time; a failed write is caught and logged. -/
def safe_update_status (st : AppState) (video_id : String) (status_dict : StatusRec)
    (fileOk : Bool) (now : Nat) : AppState :=
  { st with
    download_status := (video_id, status_dict) :: st.download_status,
    status_files :=
      if fileOk then (video_id, status_dict, now) :: st.status_files else st.status_files }

/-- `get_status_from_file`: reads the status file when it exists and the read
succeeds (`readOk`); a failed read, like a missing file, falls back to the
in-memory dict, and an id absent from both yields `{'status': 'not_found'}`. -/
def get_status_from_file (st : AppState) (video_id : String) (readOk : Bool) : StatusRec :=
  match st.status_files.lookup video_id with
  | some (rec, _) =>
    if readOk then rec else (st.download_status.lookup video_id).getD notFoundRec
  | none => (st.download_status.lookup video_id).getD notFoundRec

/-- `cleanup_old_status_files`: deletes status files whose age exceeds
`max_age_seconds`. -/
def cleanup_old_status_files (st : AppState) (now : Nat) (max_age_seconds : Nat) : AppState :=
  { st with status_files :=
      st.status_files.filter (fun e => decide (now - e.2.2 ≤ max_age_seconds)) }

/-- `start_download_worker`: on first start, runs the 24-hour status cleanup
and marks the worker as started. -/
def start_download_worker (st : AppState) (now : Nat) : AppState :=
  if st.worker_started then st
  else { cleanup_old_status_files st now 86400 with worker_started := true }

/-- A parsed `/api/download` request body; `none` fields are absent keys. -/
structure DlRequest where
  urls : Option (List String)
  dtype : Option String
  quality : Option String
  speed : Option Nat

/-- The body of the per-url loop of the `download` handler: allocate the next
id, record it, write the `queued` status and enqueue the job. -/
def enqueue_one (download_type quality_preset : String) (speed_limit_mbps : Nat)
    (fileOk : Bool) (now : Nat) (acc : AppState × List String) (url : String) :
    AppState × List String :=
  let video_id := "download_" ++ toString acc.1.download_counter
  let st := { acc.1 with download_counter := acc.1.download_counter + 1 }
  let st := safe_update_status st video_id queuedRec fileOk now
  let st := { st with dl_queue := st.dl_queue ++
      [{ url := url, download_type := download_type, quality_preset := quality_preset,
         speed_limit_mbps := speed_limit_mbps, video_id := video_id }] }
  (st, acc.2 ++ [video_id])

/-- The `POST /api/download` handler: applies the request defaults, rejects
an empty url list with `('No URLs provided', 400)`, otherwise starts the
worker and enqueues one job per url, returning the new ids. -/
def download (st : AppState) (req : DlRequest) (fileOk : Bool) (now : Nat) :
    Except (String × Nat) (List String) × AppState :=
  let urls := req.urls.getD []
  let download_type := req.dtype.getD "audio+video"
  let quality_preset := req.quality.getD "best"
  let speed_limit_mbps := req.speed.getD 5
  if urls.isEmpty then (Except.error ("No URLs provided", 400), st)
  else
    let st1 := start_download_worker st now
    let out := urls.foldl
      (enqueue_one download_type quality_preset speed_limit_mbps fileOk now) (st1, [])
    (Except.ok out.2, out.1)

/-- The environment of one worker iteration: the outcomes of the external
calls made while processing the dequeued job, plus the success flag for its
status-file writes and the time stamped on them. -/
structure JobEnv where
  infoRes : Option (String × Nat)
  events : List HookEvent
  dlErr : Option String
  reenc : ReencodeEnv
  fileOk : Bool
  now : Nat

/-- One iteration of the `download_worker` loop: dequeue the front job (a
blocked `get` on an empty queue is a no-op step), reset its status to
`queued`, and run `download_video`, applying its writes in order.  The job
leaves the queue permanently: there is no retry, and the loop's catch-all
`except` keeps the worker alive. -/
def download_worker_step (st : AppState) (env : JobEnv) : AppState :=
  match st.dl_queue with
  | [] => st
  | job :: rest =>
    let st1 := { st with dl_queue := rest }
    let st2 := safe_update_status st1 job.video_id queuedRec env.fileOk env.now
    let res := download_video job env.infoRes env.events env.dlErr env.reenc
    res.writes.foldl (fun s w => safe_update_status s job.video_id w env.fileOk env.now) st2

/-- The `GET /api/download-status/<id>` handler: always HTTP 200 with the
looked-up record (`jsonify` of `get_status_from_file`). -/
def get_download_status (st : AppState) (download_id : String) (readOk : Bool) :
    Nat × StatusRec :=
  (200, get_status_from_file st download_id readOk)

/-- The `GET /api/downloads` handler: every regular file of `DOWNLOAD_DIR`
(`pathlib` glob `*` matches hidden names too) as `(name, size, path)`. -/
def list_downloads (st : AppState) : List (String × Nat × String) :=
  (st.dfiles.filter (fun f => f.is_file)).map
    (fun f => (f.name, f.size, "/download/" ++ f.name))

/-- The `POST /api/downloads/clear` handler (success path): deletes every
non-hidden regular file of `DOWNLOAD_DIR`, and every `*.json` status file
(all status files are named `<id>.json`); returns the count of deleted
download files. -/
def clear_downloads (st : AppState) : (Bool × Nat) × AppState :=
  let deleted := (st.dfiles.filter (fun f => f.is_file && !startsWithDot f.name)).length
  ((true, deleted),
   { st with
     dfiles := st.dfiles.filter (fun f => !(f.is_file && !startsWithDot f.name)),
     status_files := [] })

/-- The `DELETE /api/downloads/<filename>` handler: removes the named entry
when it exists as a regular file, else `('File not found', 404)`. -/
def delete_file (st : AppState) (filename : String) :
    Except (String × Nat) Unit × AppState :=
  if st.dfiles.any (fun f => f.name == filename && f.is_file) then
    (Except.ok (), { st with dfiles := st.dfiles.filter (fun f => !(f.name == filename)) })
  else (Except.error ("File not found", 404), st)

/-- One atomic step of the interleaved system: a handler call or one worker
iteration. -/
inductive Op where
  | submit (req : DlRequest) (fileOk : Bool) (now : Nat)
  | worker (env : JobEnv)
  | clear
  | cleanup (now : Nat)
  | deleteF (filename : String)

/-- State transition of one step. -/
def stepSt (st : AppState) : Op → AppState
  | .submit req fileOk now => (download st req fileOk now).2
  | .worker env => download_worker_step st env
  | .clear => (clear_downloads st).2
  | .cleanup now => cleanup_old_status_files st now 86400
  | .deleteF filename => (delete_file st filename).2

/-- Runs a sequence of steps. -/
def runOps (st : AppState) (ops : List Op) : AppState :=
  ops.foldl stepSt st

/-- The ids returned by a `download` handler result. -/
def idsOf : Except (String × Nat) (List String) → List String
  | .ok ids => ids
  | .error _ => []

/-- An execution trace that also logs the order in which job ids were
enqueued and the order in which the worker picked them up for processing. -/
structure SchedTrace where
  st : AppState
  enqueued : List String
  processed : List String

/-- Trace transition: `submit` logs the returned ids as enqueued, `worker`
logs the dequeued job id as processed. -/
def stepTrace (t : SchedTrace) : Op → SchedTrace
  | .submit req fileOk now =>
    let r := download t.st req fileOk now
    { st := r.2,
      enqueued := t.enqueued ++ idsOf r.1,
      processed := t.processed }
  | .worker env =>
    { st := download_worker_step t.st env,
      enqueued := t.enqueued,
      processed := t.processed ++
        (match t.st.dl_queue with | [] => [] | job :: _ => [job.video_id]) }
  | op => { t with st := stepSt t.st op }

/-- The initial trace. -/
def initTrace : SchedTrace :=
  { st := initState, enqueued := [], processed := [] }

/-- Runs a sequence of steps from the initial trace. -/
def runTrace (ops : List Op) : SchedTrace :=
  ops.foldl stepTrace initTrace

/-- The id is present in the in-memory status dict. -/
def memHas (st : AppState) (id : String) : Bool :=
  (st.download_status.lookup id).isSome

/-- A record actually written by the application (never the `not_found`
placeholder). -/
def goodRec (r : StatusRec) : Prop := r.status ≠ "not_found"

/-- Every stored record, in memory and on file, is a real written record. -/
def goodState (st : AppState) : Prop :=
  (∀ p ∈ st.download_status, goodRec p.2) ∧ (∀ p ∈ st.status_files, goodRec p.2.1)

theorem mem_of_getLast?_eq {α : Type} {l : List α} {a : α} (h : l.getLast? = some a) :
    a ∈ l := by
  obtain ⟨hne, heq⟩ :=
    List.mem_getLast?_eq_getLast (show a ∈ l.getLast? from Option.mem_def.2 h)
  rw [heq]
  exact List.getLast_mem hne

theorem progress_hook_bounds (t : String) (ev : HookEvent) (hok : eventOk ev = true)
    (r : StatusRec) (p : Int) (hr : progress_hook t ev = some r) (hp : r.progress = some p) :
    0 ≤ p ∧ p ≤ 100 := by
  cases ev with
  | downloading total downloaded speed =>
    simp only [progress_hook] at hr
    by_cases htot : total > 0
    · rw [if_pos htot] at hr
      injection hr with hr
      rw [← hr] at hp
      simp only [Option.some.injEq] at hp
      subst hp
      refine ⟨Int.ofNat_nonneg _, ?_⟩
      have hdl : downloaded ≤ total := by simpa [eventOk] using hok
      have : downloaded * 100 / total ≤ total * 100 / total :=
        Nat.div_le_div_right (Nat.mul_le_mul_right _ hdl)
      rw [Nat.mul_div_cancel_left _ htot] at this
      exact Int.ofNat_le.2 this
    · rw [if_neg htot] at hr
      exact absurd hr (by simp)
  | processing =>
    simp only [progress_hook] at hr
    injection hr with hr
    rw [← hr] at hp
    simp only [Option.some.injEq] at hp
    subst hp
    exact ⟨by decide, by decide⟩
  | finished =>
    simp only [progress_hook] at hr
    injection hr with hr
    rw [← hr] at hp
    simp only [Option.some.injEq] at hp
    subst hp
    exact ⟨by decide, by decide⟩

theorem hookList_bounds (t : String) (events : List HookEvent)
    (hok : ∀ ev ∈ events, eventOk ev = true) :
    ∀ p ∈ progressesOf (events.filterMap (progress_hook t)), 0 ≤ p ∧ p ≤ 100 := by
  intro p hp
  unfold progressesOf at hp
  obtain ⟨r, hr, hpr⟩ := List.mem_filterMap.1 hp
  obtain ⟨ev, hev, hre⟩ := List.mem_filterMap.1 hr
  exact progress_hook_bounds t ev (hok ev hev) r p hre hpr

theorem getLast?_cons_concat {α : Type} (a : α) (l : List α) (b : α) :
    (a :: l ++ [b]).getLast? = some b :=
  List.getLast?_concat _

theorem getLast?_cons_append_concat {α : Type} (a : α) (l₁ l₂ : List α) (b : α) :
    (a :: l₁ ++ (l₂ ++ [b])).getLast? = some b := by
  rw [show a :: l₁ ++ (l₂ ++ [b]) = (a :: (l₁ ++ l₂)) ++ [b] by simp]
  exact List.getLast?_concat _

theorem lookup_append_isSome {β : Type} (l₁ l₂ : List (String × β)) (k : String)
    (h : (l₂.lookup k).isSome = true) : ((l₁ ++ l₂).lookup k).isSome = true := by
  induction l₁ with
  | nil => simpa using h
  | cons p l ih =>
    obtain ⟨a, b⟩ := p
    rw [List.cons_append]
    cases hk : k == a
    · simpa [List.lookup, hk] using ih
    · simp [List.lookup, hk]

theorem mem_of_lookup_eq_some {β : Type} {l : List (String × β)} {k : String} {b : β}
    (h : l.lookup k = some b) : (k, b) ∈ l := by
  induction l with
  | nil => simp [List.lookup] at h
  | cons p l ih =>
    obtain ⟨a, c⟩ := p
    cases hk : k == a
    · simp only [List.lookup, hk] at h
      exact List.mem_cons_of_mem _ (ih h)
    · simp only [List.lookup, hk] at h
      injection h with h
      subst h
      rw [eq_of_beq hk]
      exact List.mem_cons_self _ _

theorem foldl_safe_update_state (ws : List StatusRec) (vid : String) (fok : Bool) (now : Nat) :
    ∀ s : AppState,
      (ws.foldl (fun a w => safe_update_status a vid w fok now) s).dl_queue = s.dl_queue
      ∧ (∃ pre, (ws.foldl (fun a w => safe_update_status a vid w fok now) s).download_status
            = pre ++ s.download_status ∧ ∀ p ∈ pre, p.2 ∈ ws)
      ∧ (∀ p ∈ (ws.foldl (fun a w => safe_update_status a vid w fok now) s).status_files,
            p ∈ s.status_files ∨ p.2.1 ∈ ws)
      ∧ (ws.foldl (fun a w => safe_update_status a vid w fok now) s).dfiles = s.dfiles := by
  induction ws with
  | nil =>
    intro s
    exact ⟨rfl, ⟨[], rfl, by simp⟩, fun p hp => Or.inl hp, rfl⟩
  | cons w ws ih =>
    intro s
    obtain ⟨hq, ⟨pre, hpre, hmem⟩, hsf, hdf⟩ := ih (safe_update_status s vid w fok now)
    rw [List.foldl_cons]
    refine ⟨hq.trans rfl, ⟨pre ++ [(vid, w)], ?_, ?_⟩, ?_, hdf.trans rfl⟩
    · rw [hpre, List.append_assoc]
      rfl
    · intro p hp
      rcases List.mem_append.1 hp with h1 | h1
      · exact List.mem_cons_of_mem _ (hmem p h1)
      · have : p = (vid, w) := by simpa using h1
        rw [this]
        exact List.mem_cons_self _ _
    · intro p hp
      rcases hsf p hp with h1 | h1
      · by_cases hfok : fok
        · simp only [safe_update_status, hfok, if_true] at h1
          rcases List.mem_cons.1 h1 with h2 | h2
          · rw [h2]
            exact Or.inr (List.mem_cons_self _ _)
          · exact Or.inl h2
        · simp only [safe_update_status, hfok, if_false] at h1
          exact Or.inl h1
      · exact Or.inr (List.mem_cons_of_mem _ h1)

theorem start_download_worker_state (st : AppState) (now : Nat) :
    (start_download_worker st now).download_status = st.download_status
    ∧ (∀ p ∈ (start_download_worker st now).status_files, p ∈ st.status_files)
    ∧ (start_download_worker st now).dl_queue = st.dl_queue
    ∧ (start_download_worker st now).download_counter = st.download_counter
    ∧ (start_download_worker st now).dfiles = st.dfiles := by
  unfold start_download_worker cleanup_old_status_files
  by_cases h : st.worker_started
  · simp [h]
  · simp only [h, if_false]
    exact ⟨rfl, fun p hp => (List.mem_filter.1 hp).1, rfl, rfl, rfl⟩

theorem foldl_enqueue_state (us : List String) (dt qp : String) (sl : Nat)
    (fok : Bool) (now : Nat) :
    ∀ acc : AppState × List String,
      ∃ ids,
        (us.foldl (enqueue_one dt qp sl fok now) acc).2 = acc.2 ++ ids
        ∧ (us.foldl (enqueue_one dt qp sl fok now) acc).1.dl_queue.map (fun j => j.video_id)
            = acc.1.dl_queue.map (fun j => j.video_id) ++ ids
        ∧ (∃ pre, (us.foldl (enqueue_one dt qp sl fok now) acc).1.download_status
              = pre ++ acc.1.download_status ∧ ∀ p ∈ pre, p.2 = queuedRec)
        ∧ (∀ p ∈ (us.foldl (enqueue_one dt qp sl fok now) acc).1.status_files,
              p ∈ acc.1.status_files ∨ p.2.1 = queuedRec)
        ∧ (∀ i ∈ ids, memHas (us.foldl (enqueue_one dt qp sl fok now) acc).1 i = true)
        ∧ (us.foldl (enqueue_one dt qp sl fok now) acc).1.dfiles = acc.1.dfiles := by
  induction us with
  | nil =>
    intro acc
    exact ⟨[], by simp, by simp, ⟨[], rfl, by simp⟩, fun p hp => Or.inl hp, by simp, rfl⟩
  | cons u us ih =>
    intro acc
    obtain ⟨ids, hids, hq, ⟨pre, hpre, hgood⟩, hsf, hmem, hdf⟩ :=
      ih (enqueue_one dt qp sl fok now acc u)
    rw [List.foldl_cons]
    refine ⟨("download_" ++ toString acc.1.download_counter) :: ids, ?_, ?_, ?_, ?_, ?_, ?_⟩
    · rw [hids]
      simp [enqueue_one]
    · rw [hq]
      simp [enqueue_one, safe_update_status]
    · refine ⟨pre ++ [("download_" ++ toString acc.1.download_counter, queuedRec)], ?_, ?_⟩
      · rw [hpre, List.append_assoc]
        rfl
      · intro p hp
        rcases List.mem_append.1 hp with h1 | h1
        · exact hgood p h1
        · have : p = ("download_" ++ toString acc.1.download_counter, queuedRec) := by
            simpa using h1
          rw [this]
    · intro p hp
      rcases hsf p hp with h1 | h1
      · by_cases hfok : fok
        · simp only [enqueue_one, safe_update_status, hfok, if_true] at h1
          rcases List.mem_cons.1 h1 with h2 | h2
          · rw [h2]
            exact Or.inr rfl
          · exact Or.inl h2
        · simp only [enqueue_one, safe_update_status, hfok, if_false] at h1
          exact Or.inl h1
      · exact Or.inr h1
    · intro i hi
      rcases List.mem_cons.1 hi with h1 | h1
      · subst h1
        unfold memHas
        rw [hpre]
        refine lookup_append_isSome pre _ _ ?_
        simp [enqueue_one, safe_update_status, List.lookup]
      · exact hmem i h1
    · rw [hdf]
      rfl

theorem progress_hook_status (t : String) (ev : HookEvent) (r : StatusRec)
    (hr : progress_hook t ev = some r) : goodRec r := by
  cases ev with
  | downloading total downloaded speed =>
    simp only [progress_hook] at hr
    by_cases htot : total > 0
    · rw [if_pos htot] at hr
      injection hr with hr
      rw [← hr]
      simp [goodRec]
    · rw [if_neg htot] at hr
      exact absurd hr (by simp)
  | processing =>
    simp only [progress_hook] at hr
    injection hr with hr
    rw [← hr]
    simp [goodRec]
  | finished =>
    simp only [progress_hook] at hr
    injection hr with hr
    rw [← hr]
    simp [goodRec]

theorem minivanReencode_good (t : String) (env : ReencodeEnv) :
    ∀ w ∈ (minivanReencode t env).1, goodRec w := by
  intro w hw
  unfold minivanReencode at hw
  by_cases h1 : env.foundFiles.isEmpty
  · rw [if_pos h1] at hw
    rw [List.mem_singleton] at hw
    subst hw
    simp [goodRec]
  · rw [if_neg h1] at hw
    by_cases h2 : env.probeOk = false
    · rw [if_pos h2] at hw
      rw [List.mem_singleton] at hw
      subst hw
      simp [goodRec]
    · rw [if_neg h2] at hw
      rcases List.mem_cons.1 hw with h3 | h3
      · subst h3
        simp [goodRec]
      · obtain ⟨x, _, hx⟩ := List.mem_filterMap.1 h3
        unfold reencodeWrite at hx
        by_cases hd : (0 : Rat) < env.duration
        · rw [if_pos hd] at hx
          injection hx with hx
          rw [← hx]
          simp [goodRec]
        · rw [if_neg hd] at hx
          exact absurd hx (by simp)

theorem download_video_writes_good (job : DlJob) (infoRes : Option (String × Nat))
    (events : List HookEvent) (dlErr : Option String) (env : ReencodeEnv) :
    ∀ w ∈ (download_video job infoRes events dlErr env).writes, goodRec w := by
  intro w hw
  unfold download_video at hw
  cases dlErr with
  | some e =>
    rcases List.mem_append.1 hw with h1 | h1
    · rcases List.mem_cons.1 h1 with h2 | h2
      · subst h2
        simp [goodRec]
      · obtain ⟨ev, _, hev⟩ := List.mem_filterMap.1 h2
        exact progress_hook_status _ ev w hev
    · rw [List.mem_singleton] at h1
      subst h1
      simp [goodRec]
  | none =>
    by_cases hc : (job.download_type == "audio+video" && job.quality_preset == "minivan") = true
    · simp only [hc, if_true] at hw
      rcases List.mem_append.1 hw with h1 | h1
      · rcases List.mem_cons.1 h1 with h2 | h2
        · subst h2
          simp [goodRec]
        · obtain ⟨ev, _, hev⟩ := List.mem_filterMap.1 h2
          exact progress_hook_status _ ev w hev
      · rcases List.mem_append.1 h1 with h2 | h2
        · exact minivanReencode_good _ env w h2
        · rw [List.mem_singleton] at h2
          subst h2
          simp [goodRec]
    · simp only [hc, if_false] at hw
      rcases List.mem_append.1 hw with h1 | h1
      · rcases List.mem_cons.1 h1 with h2 | h2
        · subst h2
          simp [goodRec]
        · obtain ⟨ev, _, hev⟩ := List.mem_filterMap.1 h2
          exact progress_hook_status _ ev w hev
      · rw [List.mem_singleton] at h1
        subst h1
        simp [goodRec]

theorem queuedRec_good : goodRec queuedRec := by
  simp [goodRec, queuedRec]

theorem download_state (st : AppState) (req : DlRequest) (fok : Bool) (now : Nat) :
    (∃ pre, (download st req fok now).2.download_status = pre ++ st.download_status
        ∧ ∀ p ∈ pre, p.2 = queuedRec)
    ∧ (∀ p ∈ (download st req fok now).2.status_files, p ∈ st.status_files ∨ p.2.1 = queuedRec)
    ∧ (download st req fok now).2.dl_queue.map (fun j => j.video_id)
        = st.dl_queue.map (fun j => j.video_id) ++ idsOf (download st req fok now).1
    ∧ (∀ i ∈ idsOf (download st req fok now).1, memHas (download st req fok now).2 i = true)
    ∧ (download st req fok now).2.dfiles = st.dfiles := by
  simp only [download]
  cases hurls : (req.urls.getD []).isEmpty with
  | true =>
    rw [if_pos rfl]
    refine ⟨⟨[], rfl, by simp⟩, fun p hp => Or.inl hp, ?_, ?_, rfl⟩
    · simp [idsOf]
    · simp [idsOf]
  | false =>
    rw [if_neg (by simp)]
    obtain ⟨hds, hsf0, hq0, hdc0, hdf0⟩ := start_download_worker_state st now
    obtain ⟨ids, hids, hq, ⟨pre, hpre, hgood⟩, hsf, hmem, hdf⟩ :=
      foldl_enqueue_state (req.urls.getD []) (req.dtype.getD "audio+video")
        (req.quality.getD "best") (req.speed.getD 5) fok now (start_download_worker st now, [])
    have hp1 : (start_download_worker st now, ([] : List String)).1
        = start_download_worker st now := rfl
    have hp2 : (start_download_worker st now, ([] : List String)).2 = ([] : List String) := rfl
    rw [hp1] at hq hpre hsf hdf
    rw [hp2] at hids
    rw [List.nil_append] at hids
    refine ⟨⟨pre, ?_, hgood⟩, ?_, ?_, ?_, ?_⟩
    · rw [hpre, hds]
    · intro p hp
      rcases hsf p hp with h1 | h1
      · exact Or.inl (hsf0 p h1)
      · exact Or.inr h1
    · simp only [idsOf]
      rw [hq, hq0, hids]
    · intro i hi
      refine hmem i ?_
      simp only [idsOf] at hi
      rw [← hids]
      exact hi
    · rw [hdf, hdf0]

theorem delete_file_parts (st : AppState) (f : String) :
    (delete_file st f).2.download_status = st.download_status
    ∧ (delete_file st f).2.status_files = st.status_files
    ∧ (delete_file st f).2.dl_queue = st.dl_queue := by
  unfold delete_file
  split <;> exact ⟨rfl, rfl, rfl⟩

theorem worker_step_parts (st : AppState) (env : JobEnv) :
    (∃ pre, (download_worker_step st env).download_status = pre ++ st.download_status
        ∧ ∀ p ∈ pre, goodRec p.2)
    ∧ (∀ p ∈ (download_worker_step st env).status_files, p ∈ st.status_files ∨ goodRec p.2.1)
    ∧ (download_worker_step st env).dl_queue = st.dl_queue.tail
    ∧ (download_worker_step st env).dfiles = st.dfiles := by
  unfold download_worker_step
  cases hq : st.dl_queue with
  | nil =>
    exact ⟨⟨[], rfl, by simp⟩, fun p hp => Or.inl hp, by simp [hq], rfl⟩
  | cons job rest =>
    obtain ⟨hql, ⟨pre, hpre, hws⟩, hsf, hdf⟩ :=
      foldl_safe_update_state
        (download_video job env.infoRes env.events env.dlErr env.reenc).writes
        job.video_id env.fileOk env.now
        (safe_update_status { st with dl_queue := rest } job.video_id queuedRec env.fileOk env.now)
    have hwgood := download_video_writes_good job env.infoRes env.events env.dlErr env.reenc
    refine ⟨⟨pre ++ [(job.video_id, queuedRec)], ?_, ?_⟩, ?_, ?_, ?_⟩
    · rw [hpre, List.append_assoc]
      rfl
    · intro p hp
      rcases List.mem_append.1 hp with h1 | h1
      · exact hwgood p.2 (hws p h1)
      · have : p = (job.video_id, queuedRec) := by simpa using h1
        rw [this]
        exact queuedRec_good
    · intro p hp
      rcases hsf p hp with h1 | h1
      · by_cases hfok : env.fileOk
        · simp only [safe_update_status, hfok, if_true] at h1
          rcases List.mem_cons.1 h1 with h2 | h2
          · rw [h2]
            exact Or.inr queuedRec_good
          · exact Or.inl h2
        · simp only [safe_update_status, hfok, if_false] at h1
          exact Or.inl h1
      · exact Or.inr (hwgood p.2.1 h1)
    · rw [hql]
      rfl
    · rw [hdf]
      rfl

theorem stepSt_state (st : AppState) (op : Op) :
    (∃ pre, (stepSt st op).download_status = pre ++ st.download_status
        ∧ ∀ p ∈ pre, goodRec p.2)
    ∧ (∀ p ∈ (stepSt st op).status_files, p ∈ st.status_files ∨ goodRec p.2.1) := by
  cases op with
  | submit req fok now =>
    obtain ⟨⟨pre, hpre, hgood⟩, hsf, -, -, -⟩ := download_state st req fok now
    refine ⟨⟨pre, hpre, fun p hp => ?_⟩, fun p hp => (hsf p hp).imp id (fun h => ?_)⟩
    · rw [hgood p hp]
      exact queuedRec_good
    · rw [h]
      exact queuedRec_good
  | worker env =>
    obtain ⟨h1, h2, -, -⟩ := worker_step_parts st env
    exact ⟨h1, h2⟩
  | clear =>
    refine ⟨⟨[], rfl, by simp⟩, ?_⟩
    intro p hp
    simp [stepSt, clear_downloads] at hp
  | cleanup now =>
    refine ⟨⟨[], rfl, by simp⟩, ?_⟩
    intro p hp
    exact Or.inl (List.mem_filter.1 hp).1
  | deleteF f =>
    obtain ⟨h1, h2, -⟩ := delete_file_parts st f
    refine ⟨⟨[], ?_, by simp⟩, ?_⟩
    · simp only [stepSt]
      rw [h1, List.nil_append]
    · intro p hp
      simp only [stepSt] at hp
      rw [h2] at hp
      exact Or.inl hp

theorem stepSt_memHas (st : AppState) (op : Op) (id : String)
    (h : memHas st id = true) : memHas (stepSt st op) id = true := by
  obtain ⟨⟨pre, hpre, -⟩, -⟩ := stepSt_state st op
  unfold memHas at h ⊢
  rw [hpre]
  exact lookup_append_isSome pre _ id h

theorem stepSt_goodState (st : AppState) (op : Op) (h : goodState st) :
    goodState (stepSt st op) := by
  obtain ⟨⟨pre, hpre, hgood⟩, hsf⟩ := stepSt_state st op
  constructor
  · intro p hp
    rw [hpre] at hp
    rcases List.mem_append.1 hp with h1 | h1
    · exact hgood p h1
    · exact h.1 p h1
  · intro p hp
    rcases hsf p hp with h1 | h1
    · exact h.2 p h1
    · exact h1

theorem runOps_memHas_good (ops : List Op) :
    ∀ st id, goodState st → memHas st id = true →
      goodState (runOps st ops) ∧ memHas (runOps st ops) id = true := by
  induction ops with
  | nil => exact fun st id hg hm => ⟨hg, hm⟩
  | cons op ops ih =>
    intro st id hg hm
    have h1 := stepSt_goodState st op hg
    have h2 := stepSt_memHas st op id hm
    unfold runOps at ih ⊢
    rw [List.foldl_cons]
    exact ih (stepSt st op) id h1 h2

theorem get_status_ne_notFound (st : AppState) (id : String) (ro : Bool)
    (hg : goodState st) (hm : memHas st id = true) :
    (get_status_from_file st id ro).status ≠ "not_found" := by
  have hmem : ∀ v, st.download_status.lookup id = some v →
      ((st.download_status.lookup id).getD notFoundRec).status ≠ "not_found" := by
    intro v hv
    rw [hv]
    exact hg.1 (id, v) (mem_of_lookup_eq_some hv)
  unfold memHas at hm
  cases hv : st.download_status.lookup id with
  | none => rw [hv] at hm; simp at hm
  | some v =>
    unfold get_status_from_file
    cases hf : st.status_files.lookup id with
    | none => exact hmem v hv
    | some pr =>
      obtain ⟨rec, mt⟩ := pr
      by_cases hro : ro
      · simp only [hro, if_true]
        exact hg.2 (id, rec, mt) (mem_of_lookup_eq_some hf)
      · simp only [hro, if_false]
        exact hmem v hv

/-- C1 counterexample: for an audio+video job with the `minivan` preset whose
download run ends with the tool's `finished` hook event (which writes
progress 100), the re-encode block then writes progress 75 before the
terminal `completed` write of 100: the progress sequence of the status
records written over the job's lifecycle is 0,0,0,100,75,100, which
decreases from 100 to 75. -/
theorem C1_counterexample :
    progressesOf (jobStatusTrace
      { url := "u", download_type := "audio+video", quality_preset := "minivan",
        speed_limit_mbps := 5, video_id := "download_0" }
      (some ("t", 0)) [HookEvent.finished] none
      { foundFiles := [], probeOk := false, duration := 0, times := [], ffmpegOk := false })
      = [0, 0, 0, 100, 75, 100]
    ∧ nonDecreasing [0, 0, 0, 100, 75, 100] = false := by
  exact ⟨by decide, by decide⟩

/-- C1 amended: progress never decreases across the status records written
during a job's lifecycle provided the job does not take the minivan
re-encode path (its type is not audio+video or its preset is not `minivan`),
the download tool does not raise, each hook event reports no more downloaded
bytes than its total, and the progress values of the hook-event writes are
themselves non-decreasing.  (Without these provisos the claim fails: the
minivan path writes 75 after the `finished` hook wrote 100, and the hook
passes through whatever the tool reports.) -/
theorem C1_amended (job : DlJob) (infoRes : Option (String × Nat)) (events : List HookEvent)
    (env : ReencodeEnv)
    (hmv : ¬(job.download_type = "audio+video" ∧ job.quality_preset = "minivan"))
    (hok : ∀ ev ∈ events, eventOk ev = true)
    (hmono : nonDecreasing (progressesOf (events.filterMap
      (progress_hook ((infoRes.map Prod.fst).getD "Unknown Video")))) = true) :
    nonDecreasing (progressesOf (jobStatusTrace job infoRes events none env)) = true := by
  have hcond : (job.download_type == "audio+video" && job.quality_preset == "minivan")
      = false := by
    cases h1 : job.download_type == "audio+video" with
    | false => simp
    | true =>
      cases h2 : job.quality_preset == "minivan" with
      | false => simp
      | true => exact absurd ⟨eq_of_beq h1, eq_of_beq h2⟩ hmv
  set t := (infoRes.map Prod.fst).getD "Unknown Video" with ht
  have htrace : progressesOf (jobStatusTrace job infoRes events none env)
      = 0 :: 0 :: 0 :: (progressesOf (events.filterMap (progress_hook t)) ++ [100]) := by
    simp [jobStatusTrace, download_video, hcond, progressesOf, queuedRec,
      List.filterMap_append, ← ht]
  rw [htrace, nonDecreasing_iff_chain]
  have hb := hookList_bounds t events hok
  rw [nonDecreasing_iff_chain] at hmono
  have hchain :
      (progressesOf (events.filterMap (progress_hook t)) ++ [100]).Chain'
        (fun a b => a ≤ b) := by
    refine List.chain'_append.2 ⟨hmono, List.chain'_singleton _, ?_⟩
    intro x hx y hy
    have hxm := mem_of_getLast?_eq (Option.mem_def.1 hx)
    have hy' : (100 : Int) = y := by simpa using (Option.mem_def.1 hy)
    rw [← hy']
    exact (hb x hxm).2
  have hhead :
      ∀ y ∈ (progressesOf (events.filterMap (progress_hook t)) ++ [100]).head?,
        (0 : Int) ≤ y := by
    intro y hy
    cases hsl : progressesOf (events.filterMap (progress_hook t)) with
    | nil =>
      rw [hsl] at hy
      have h100 : (100 : Int) = y := by simpa using (Option.mem_def.1 hy)
      omega
    | cons a l =>
      rw [hsl] at hy
      have hya : a = y := by simpa using (Option.mem_def.1 hy)
      have ha : 0 ≤ a := (hb a (by rw [hsl]; exact List.mem_cons_self a l)).1
      omega
  refine List.Chain'.cons' (List.Chain'.cons' (List.Chain'.cons' hchain hhead) ?_) ?_
  · intro y hy
    have h0 : (0 : Int) = y := by simpa using (Option.mem_def.1 hy)
    omega
  · intro y hy
    have h0 : (0 : Int) = y := by simpa using (Option.mem_def.1 hy)
    omega

/-- C1 amended, witnessed at a concrete non-minivan job whose download
reports 50% then finishes. -/
theorem C1_amended_witness :
    nonDecreasing (progressesOf (jobStatusTrace
      { url := "u", download_type := "audio", quality_preset := "best",
        speed_limit_mbps := 5, video_id := "download_1" }
      (some ("t", 0)) [HookEvent.downloading 100 50 0, HookEvent.finished] none
      { foundFiles := [], probeOk := false, duration := 0, times := [], ffmpegOk := false }))
      = true :=
  C1_amended
    { url := "u", download_type := "audio", quality_preset := "best",
      speed_limit_mbps := 5, video_id := "download_1" }
    (some ("t", 0)) [HookEvent.downloading 100 50 0, HookEvent.finished]
    { foundFiles := [], probeOk := false, duration := 0, times := [], ffmpegOk := false }
    (by decide) (by decide) (by decide)

theorem stepTrace_fifo (t : SchedTrace) (op : Op)
    (h : t.enqueued = t.processed ++ t.st.dl_queue.map (fun j => j.video_id)) :
    (stepTrace t op).enqueued
      = (stepTrace t op).processed
        ++ (stepTrace t op).st.dl_queue.map (fun j => j.video_id) := by
  cases op with
  | submit req fok now =>
    simp only [stepTrace]
    rw [(download_state t.st req fok now).2.2.1, h, List.append_assoc]
  | worker env =>
    simp only [stepTrace]
    rw [(worker_step_parts t.st env).2.2.1]
    cases hqs : t.st.dl_queue with
    | nil =>
      rw [hqs] at h
      simpa using h
    | cons job rest =>
      rw [hqs] at h
      rw [h]
      simp
  | clear =>
    simp only [stepTrace, stepSt]
    exact h
  | cleanup now =>
    simp only [stepTrace, stepSt]
    exact h
  | deleteF f =>
    simp only [stepTrace, stepSt]
    rw [(delete_file_parts t.st f).2.2]
    exact h

theorem runTrace_fifo (ops : List Op) :
    ∀ t : SchedTrace, t.enqueued = t.processed ++ t.st.dl_queue.map (fun j => j.video_id) →
      (ops.foldl stepTrace t).enqueued
        = (ops.foldl stepTrace t).processed
          ++ (ops.foldl stepTrace t).st.dl_queue.map (fun j => j.video_id) := by
  induction ops with
  | nil => exact fun t h => h
  | cons op ops ih =>
    intro t h
    rw [List.foldl_cons]
    exact ih _ (stepTrace_fifo t op h)

/-- C3: jobs are executed in FIFO submission order by the single worker.  In
every reachable execution, the ids the worker has picked up for processing,
in pickup order, followed by the ids still waiting in the queue, in queue
order, are exactly the ids handed out by the submit handler in submission
order: the worker dequeues strictly from the front and each `worker` step
runs one dequeued job to completion (its status writes form one contiguous
block) before any later job is touched, so no job starts before its
predecessors finish and at most one job is processed at a time. -/
theorem C3_fifo_single_worker (ops : List Op) :
    (runTrace ops).enqueued
      = (runTrace ops).processed
        ++ (runTrace ops).st.dl_queue.map (fun j => j.video_id) :=
  runTrace_fifo ops initTrace rfl

/-- C2: for an audio+video job with the `minivan` preset whose base download
succeeds (the download tool raises no exception), the last status record
written for the job has status `completed` even when the re-encode step
fails (no matching file, ffprobe failure, or ffmpeg failure — that is,
`minivan_success` is false): the failure is swallowed and never yields an
`error` terminal status. -/
theorem C2_reencode_failure_still_completed (job : DlJob) (infoRes : Option (String × Nat))
    (events : List HookEvent) (env : ReencodeEnv)
    (hdt : job.download_type = "audio+video") (hqp : job.quality_preset = "minivan")
    (hfail : (download_video job infoRes events none env).minivan_success = false) :
    ((download_video job infoRes events none env).writes.getLast?).map StatusRec.status
      = some "completed" := by
  have hc : (job.download_type == "audio+video" && job.quality_preset == "minivan")
      = true := by
    simp [hdt, hqp]
  simp only [download_video, hc, if_true]
  rw [getLast?_cons_append_concat]
  rfl

/-- C2 witnessed: a concrete minivan job whose re-encode finds no matching
file (so the re-encode fails) still ends `completed`. -/
theorem C2_witness :
    ((download_video
      { url := "u", download_type := "audio+video", quality_preset := "minivan",
        speed_limit_mbps := 5, video_id := "download_0" }
      (some ("t", 0)) [] none
      { foundFiles := [], probeOk := false, duration := 0, times := [],
        ffmpegOk := false }).writes.getLast?).map StatusRec.status = some "completed" :=
  C2_reencode_failure_still_completed
    { url := "u", download_type := "audio+video", quality_preset := "minivan",
      speed_limit_mbps := 5, video_id := "download_0" }
    (some ("t", 0)) []
    { foundFiles := [], probeOk := false, duration := 0, times := [], ffmpegOk := false }
    rfl rfl rfl

/-- C4 counterexample: the status file of a freshly submitted job (written at
time 0, so well within the 24-hour TTL) is deleted by `POST
/api/downloads/clear`, an operation that is not age-based deletion: the
claim that only age-based deletion removes a status record before TTL
expiry is false. -/
theorem C4_counterexample :
    ((download initState
        { urls := some ["u"], dtype := none, quality := none, speed := none }
        true 0).2.status_files.lookup "download_0" = some (queuedRec, 0))
    ∧ ((stepSt (download initState
        { urls := some ["u"], dtype := none, quality := none, speed := none }
        true 0).2 Op.clear).status_files.lookup "download_0" = none)
    ∧ (0 : Nat) ≤ 86400 :=
  ⟨by decide, by decide, by decide⟩

/-- C4 amended: every id returned by `POST /api/download` stays retrievable
(a poll never answers `not_found`) for the remainder of the process
lifetime, across any sequence of further operations — because the in-memory
mirror is never deleted.  The persisted status file, however, is removed not
only by age-based deletion: `POST /api/downloads/clear` deletes all status
files unconditionally. -/
theorem C4_amended (st : AppState) (req : DlRequest) (fok : Bool) (now : Nat)
    (ops : List Op) (id : String) (ro : Bool)
    (hg : goodState st)
    (hid : id ∈ idsOf (download st req fok now).1) :
    (get_status_from_file (runOps (download st req fok now).2 ops) id ro).status
      ≠ "not_found" := by
  have hm : memHas (download st req fok now).2 id = true :=
    (download_state st req fok now).2.2.2.1 id hid
  have hg1 : goodState (download st req fok now).2 :=
    stepSt_goodState st (Op.submit req fok now) hg
  obtain ⟨hg2, hm2⟩ := runOps_memHas_good ops (download st req fok now).2 id hg1 hm
  exact get_status_ne_notFound _ id ro hg2 hm2

/-- C4 amended, witnessed: even right after a clear, polling the submitted
id does not answer `not_found`. -/
theorem C4_amended_witness :
    (get_status_from_file
      (runOps (download initState
        { urls := some ["u"], dtype := none, quality := none, speed := none } true 0).2
        [Op.clear])
      "download_0" true).status ≠ "not_found" :=
  C4_amended initState
    { urls := some ["u"], dtype := none, quality := none, speed := none }
    true 0 [Op.clear] "download_0" true
    ⟨fun p hp => absurd hp (by simp [initState]), fun p hp => absurd hp (by simp [initState])⟩
    (by decide)

/-- C5: when the download tool raises an exception rendered as the string
`e`, `download_video` catches it: its final status write for the job is the
`error` record carrying `e` in the `error` field (and progress 0), the
re-encode step is skipped, and the worker removes the job from the queue
permanently, so the job is not retried.  `download_video` and
`download_worker_step` are total functions of the run environment: the
modelled catch-all handlers mean no exception reaches the worker loop or
the HTTP layer. -/
theorem C5_exception_caught (st : AppState) (jenv : JobEnv) (job : DlJob)
    (rest : List DlJob) (e : String)
    (hq : st.dl_queue = job :: rest) (he : jenv.dlErr = some e) :
    ((download_video job jenv.infoRes jenv.events jenv.dlErr jenv.reenc).writes.getLast?
      = some { status := "error", progress := some 0, error := some e,
               message := some (((jenv.infoRes.map Prod.fst).getD "Unknown Video")
                 ++ " - Error: " ++ e) })
    ∧ (download_video job jenv.infoRes jenv.events jenv.dlErr jenv.reenc).reencodeRan = false
    ∧ (download_worker_step st jenv).dl_queue = rest := by
  refine ⟨?_, ?_, ?_⟩
  · rw [he]
    simp only [download_video]
    exact getLast?_cons_concat _ _ _
  · rw [he]
    simp only [download_video]
  · rw [(worker_step_parts st jenv).2.2.1, hq]
    rfl

/-- C5 witnessed at a concrete failing job. -/
theorem C5_witness :
    ((download_video
      { url := "u", download_type := "audio+video", quality_preset := "best",
        speed_limit_mbps := 5, video_id := "download_0" }
      (some ("t", 0)) [] (some "boom")
      { foundFiles := [], probeOk := false, duration := 0, times := [],
        ffmpegOk := false }).writes.getLast?
      = some { status := "error", progress := some 0, error := some "boom",
               message := some ("t" ++ " - Error: " ++ "boom") })
    ∧ (download_video
      { url := "u", download_type := "audio+video", quality_preset := "best",
        speed_limit_mbps := 5, video_id := "download_0" }
      (some ("t", 0)) [] (some "boom")
      { foundFiles := [], probeOk := false, duration := 0, times := [],
        ffmpegOk := false }).reencodeRan = false
    ∧ (download_worker_step
      { download_status := [], status_files := [], download_counter := 1,
        dl_queue := [{ url := "u", download_type := "audio+video", quality_preset := "best", speed_limit_mbps := 5, video_id := "download_0" }],
        worker_started := true, dfiles := [] }
      { infoRes := some ("t", 0), events := [], dlErr := some "boom",
        reenc := { foundFiles := [], probeOk := false, duration := 0, times := [], ffmpegOk := false },
        fileOk := true, now := 0 }).dl_queue = [] :=
  C5_exception_caught
    { download_status := [], status_files := [], download_counter := 1,
      dl_queue := [{ url := "u", download_type := "audio+video", quality_preset := "best", speed_limit_mbps := 5, video_id := "download_0" }],
      worker_started := true, dfiles := [] }
    { infoRes := some ("t", 0), events := [], dlErr := some "boom",
      reenc := { foundFiles := [], probeOk := false, duration := 0, times := [], ffmpegOk := false },
      fileOk := true, now := 0 }
    { url := "u", download_type := "audio+video", quality_preset := "best",
      speed_limit_mbps := 5, video_id := "download_0" }
    [] "boom" rfl rfl

/-- C6 counterexample: an audio-type job with the `minivan` preset never
enters the re-encode step, although its quality preset is `minivan` — the
step requires download type audio+video as well, so "invoked exactly when
the preset is minivan" is false. -/
theorem C6_counterexample :
    (download_video
      { url := "u", download_type := "audio", quality_preset := "minivan",
        speed_limit_mbps := 5, video_id := "download_0" }
      (some ("t", 0)) [] none
      { foundFiles := [], probeOk := false, duration := 0, times := [],
        ffmpegOk := false }).reencodeRan = false
    ∧ ({ url := "u", download_type := "audio", quality_preset := "minivan",
         speed_limit_mbps := 5, video_id := "download_0" } : DlJob).quality_preset
      = "minivan" :=
  ⟨rfl, rfl⟩

/-- C6 amended: the minivan re-encode block runs exactly when the base
download raised no exception AND the download type is `audio+video` AND the
quality preset is `minivan` (its ffprobe/ffmpeg subprocesses then run only
when a matching output file is found). -/
theorem C6_amended (job : DlJob) (infoRes : Option (String × Nat)) (events : List HookEvent)
    (dlErr : Option String) (env : ReencodeEnv) :
    (download_video job infoRes events dlErr env).reencodeRan = true
      ↔ dlErr = none ∧ job.download_type = "audio+video"
        ∧ job.quality_preset = "minivan" := by
  cases dlErr with
  | some e => simp [download_video]
  | none =>
    by_cases hc : (job.download_type == "audio+video" && job.quality_preset == "minivan") = true
    · simp only [download_video, hc, if_true]
      rw [Bool.and_eq_true] at hc
      simp [eq_of_beq hc.1, eq_of_beq hc.2]
    · simp only [download_video, hc, if_false]
      constructor
      · intro h
        exact absurd h (by simp)
      · rintro ⟨-, h1, h2⟩
        exact absurd (by simp [h1, h2] : (job.download_type == "audio+video"
          && job.quality_preset == "minivan") = true) hc

/-- C7: the status store is last-write-wins by id.  After a successful set
(one whose status-file write succeeds), a get of that id — whether the
status-file read succeeds or falls back to memory — returns exactly the
value set, for any prior store contents; in particular when several sets
happen for the same id, a get returns the value of the last set. -/
theorem C7_last_write_wins (st : AppState) (video_id : String) (v v1 : StatusRec)
    (fok1 ro : Bool) (now now1 : Nat) :
    get_status_from_file (safe_update_status st video_id v true now) video_id ro = v
    ∧ get_status_from_file
        (safe_update_status (safe_update_status st video_id v1 fok1 now1) video_id v true now)
        video_id ro = v := by
  have h : ∀ s : AppState,
      get_status_from_file (safe_update_status s video_id v true now) video_id ro = v := by
    intro s
    unfold get_status_from_file safe_update_status
    simp only [if_true]
    rw [show (((video_id, v, now) :: s.status_files).lookup video_id) = some (v, now) from by
      simp [List.lookup]]
    by_cases hro : ro
    · simp [hro]
    · simp [hro, List.lookup]
  exact ⟨h st, h _⟩

/-- C8 counterexample: a hidden regular file (name starting with a dot) in
the download directory is listed by `GET /api/downloads` (`pathlib` glob
`*` matches hidden names), but `POST /api/downloads/clear` explicitly skips
names starting with a dot: the file was listed before the clear, the clear
returns success, and the file is still listed afterwards. -/
theorem C8_counterexample :
    ((list_downloads
      { download_status := [], status_files := [], download_counter := 0, dl_queue := [],
        worker_started := false,
        dfiles := [{ name := ".hidden.mp4", is_file := true, size := 7 }] }).map
          (fun e => e.1) = [".hidden.mp4"])
    ∧ ((clear_downloads
      { download_status := [], status_files := [], download_counter := 0, dl_queue := [],
        worker_started := false,
        dfiles := [{ name := ".hidden.mp4", is_file := true, size := 7 }] }).1
      = (true, 0))
    ∧ ((list_downloads (clear_downloads
      { download_status := [], status_files := [], download_counter := 0, dl_queue := [],
        worker_started := false,
        dfiles := [{ name := ".hidden.mp4", is_file := true, size := 7 }] }).2).map
          (fun e => e.1) = [".hidden.mp4"]) :=
  ⟨by decide, by decide, by decide⟩

/-- C8 amended: after a successful `DELETE /api/downloads/<name>`, that name
no longer appears in the listing; and after `POST /api/downloads/clear`, no
NON-HIDDEN file that was listed before the clear appears in a subsequent
listing (hidden regular files are listed but survive a clear). -/
theorem C8_amended (st : AppState) (filename : String)
    (hdel : (delete_file st filename).1 = Except.ok ()) :
    (∀ e ∈ list_downloads (delete_file st filename).2, e.1 ≠ filename)
    ∧ ∀ n, (∃ e ∈ list_downloads st, e.1 = n) → startsWithDot n = false →
        ∀ e ∈ list_downloads (clear_downloads st).2, e.1 ≠ n := by
  constructor
  · intro e he
    unfold delete_file at hdel he
    by_cases hex : st.dfiles.any (fun f => f.name == filename && f.is_file)
    · rw [if_pos hex] at he
      simp only [list_downloads, List.mem_map] at he
      obtain ⟨f, hf, hfe⟩ := he
      rw [List.mem_filter] at hf
      obtain ⟨hf1, -⟩ := hf
      rw [List.mem_filter] at hf1
      obtain ⟨-, hflt⟩ := hf1
      intro hcon
      rw [← hfe] at hcon
      have hfn : f.name = filename := hcon
      rw [hfn] at hflt
      simp at hflt
    · rw [if_neg hex] at hdel
      exact absurd hdel (by simp)
  · intro n _ hnh e he
    simp only [clear_downloads, list_downloads, List.mem_map] at he
    obtain ⟨f, hf, hfe⟩ := he
    rw [List.mem_filter] at hf
    obtain ⟨hf1, hfile⟩ := hf
    rw [List.mem_filter] at hf1
    obtain ⟨-, hflt⟩ := hf1
    rw [hfile] at hflt
    have hdot : startsWithDot f.name = true := by
      cases hsd : startsWithDot f.name
      · rw [hsd] at hflt
        simp at hflt
      · rfl
    intro hcon
    rw [← hfe] at hcon
    have hfn : f.name = n := hcon
    rw [hfn] at hdot
    rw [hnh] at hdot
    exact absurd hdot (by decide)

/-- C8 amended, witnessed: deleting `a.mp4` removes it from the listing, and
the clear guarantee instantiated at the same state. -/
theorem C8_amended_witness :
    (∀ e ∈ list_downloads (delete_file
      { download_status := [], status_files := [], download_counter := 0, dl_queue := [],
        worker_started := false,
        dfiles := [{ name := "a.mp4", is_file := true, size := 3 }] } "a.mp4").2,
      e.1 ≠ "a.mp4")
    ∧ ∀ n, (∃ e ∈ list_downloads
      { download_status := [], status_files := [], download_counter := 0, dl_queue := [],
        worker_started := false,
        dfiles := [{ name := "a.mp4", is_file := true, size := 3 }] }, e.1 = n) →
        startsWithDot n = false →
        ∀ e ∈ list_downloads (clear_downloads
          { download_status := [], status_files := [], download_counter := 0, dl_queue := [],
            worker_started := false,
            dfiles := [{ name := "a.mp4", is_file := true, size := 3 }] }).2, e.1 ≠ n :=
  C8_amended
    { download_status := [], status_files := [], download_counter := 0, dl_queue := [],
      worker_started := false,
      dfiles := [{ name := "a.mp4", is_file := true, size := 3 }] }
    "a.mp4" rfl

/-- C9: polling an id that was never set — no status file and no in-memory
entry — answers HTTP 200 with exactly the record `{'status': 'not_found'}`,
not an HTTP error. -/
theorem C9_unknown_id_not_found (st : AppState) (id : String) (ro : Bool)
    (hf : st.status_files.lookup id = none) (hm : st.download_status.lookup id = none) :
    get_download_status st id ro = (200, notFoundRec) := by
  unfold get_download_status get_status_from_file
  rw [hf, hm]
  rfl

/-- C9 witnessed on the initial state. -/
theorem C9_witness :
    get_download_status initState "download_42" true = (200, notFoundRec) :=
  C9_unknown_id_not_found initState "download_42" true rfl rfl

/-- C10: a `POST /api/download` whose `urls` field is missing or an empty
list answers `('No URLs provided', 400)` and leaves the whole state
unchanged — no job enqueued, no status record written, counter not
incremented, worker not started. -/
theorem C10_no_urls_rejected (st : AppState) (dtype quality : Option String)
    (speed : Option Nat) (fok : Bool) (now : Nat) (urls : Option (List String))
    (h : urls = none ∨ urls = some []) :
    download st { urls := urls, dtype := dtype, quality := quality, speed := speed } fok now
      = (Except.error ("No URLs provided", 400), st) := by
  rcases h with h | h <;> subst h <;> rfl

/-- C10 witnessed with an absent urls field. -/
theorem C10_witness :
    download initState { urls := none, dtype := none, quality := none, speed := none }
      true 0 = (Except.error ("No URLs provided", 400), initState) :=
  C10_no_urls_rejected initState none none none true 0 none (Or.inl rfl)

end YtDl
